import Mathlib

/-!
Shallow embedding of the spacepoort steering / prediction / estimation
library (src/src/lib.rs).

Floating-point (f64) arithmetic is modelled by the real numbers in the
movement module and by the rationals in the perception module, and
std::time::Duration is modelled by a real (resp. rational) number of
seconds.  Drawing calls (draw_diamond, draw_line, draw_polygon) are pure
debug output and are omitted.  Rust's `[x, y].iter().map(f).filter(p)
.reduce(min)` in lead_time is written out as the explicit two-candidate
chooser `pickTime`, and `MovementBlend`'s `filter_map / reduce(+)` is
written with List.filterMap and the explicit `reduceSum`.
-/

namespace Spacepoort

/-- 2D vector over f64 (maths_rs Vec2), modelled over ℝ. -/
@[ext]
structure Vec2 where
  x : ℝ
  y : ℝ

namespace Vec2

/-- Vec2::zero() / Vec2::default(), the zero vector. -/
def zero : Vec2 := ⟨0, 0⟩

instance : Add Vec2 := ⟨fun a b => ⟨a.x + b.x, a.y + b.y⟩⟩

instance : Sub Vec2 := ⟨fun a b => ⟨a.x - b.x, a.y - b.y⟩⟩

instance : Neg Vec2 := ⟨fun a => ⟨-a.x, -a.y⟩⟩

instance : SMul ℝ Vec2 := ⟨fun c a => ⟨c * a.x, c * a.y⟩⟩

noncomputable instance : DecidableEq Vec2 := Classical.decEq Vec2

/-- Dot product. -/
def dot (a b : Vec2) : ℝ := a.x * b.x + a.y * b.y

/-- The local `Vector` trait: sq_length = x² + y². -/
def sq_length (v : Vec2) : ℝ := v.x ^ 2 + v.y ^ 2

/-- maths_rs Vec2::length. -/
noncomputable def length (v : Vec2) : ℝ := Real.sqrt v.sq_length

/-- maths_rs Vec2::normalize (division of each component by the length). -/
noncomputable def normalize (v : Vec2) : Vec2 := ⟨v.x / v.length, v.y / v.length⟩

/-- maths_rs Vec2::rotate by an angle (counter-clockwise). -/
noncomputable def rotate (v : Vec2) (angle : ℝ) : Vec2 :=
  ⟨v.x * Real.cos angle - v.y * Real.sin angle,
   v.x * Real.sin angle + v.y * Real.cos angle⟩

/-- maths_rs Vec2::angle, i.e. atan2(y, x); modelled by the complex argument
of x + i·y, which has the same (−π, π] convention. -/
noncomputable def angle (v : Vec2) : ℝ := Complex.arg ⟨v.x, v.y⟩

end Vec2

/-- Modelled from the spec: oort_api's angle_diff (an external collaborator,
not part of src/), which per the spec normalizes the angle difference to the
shortest signed path in (−π, π]. -/
noncomputable def angle_diff (a b : ℝ) : ℝ :=
  (b - a) - 2 * Real.pi * (Int.ceil ((b - a - Real.pi) / (2 * Real.pi)) : ℝ)

/-- oort_api TICK_LENGTH (one simulation tick, in seconds). -/
noncomputable def tick_length : ℝ := 1 / 60

/-- The Kinematic trait's data: position, velocity, orientation, rotation. -/
structure KinematicState where
  position : Vec2
  velocity : Vec2
  orientation : ℝ
  rotation : ℝ

namespace KinematicState

/-- Kinematic::forward. -/
noncomputable def forward (k : KinematicState) : Vec2 := (Vec2.mk 1 0).rotate k.orientation

/-- Kinematic::speed. -/
noncomputable def speed (k : KinematicState) : ℝ := k.velocity.length

/-- Kinematic::at_time: position + velocity · t. -/
noncomputable def at_time (k : KinematicState) (t : ℝ) : Vec2 :=
  k.position + t • k.velocity

end KinematicState

/-- The coefficient a = |velocity|² − projectile_speed² of Kinematic::lead_time. -/
def leadA (k : KinematicState) (projectile_speed : ℝ) : ℝ :=
  k.velocity.sq_length - projectile_speed ^ 2

/-- The coefficient b = 2 · velocity · (position − cannon) of Kinematic::lead_time. -/
def leadB (k : KinematicState) (cannon : Vec2) : ℝ :=
  2 * k.velocity.dot (k.position - cannon)

/-- The coefficient c = |position − cannon|² of Kinematic::lead_time. -/
def leadC (k : KinematicState) (cannon : Vec2) : ℝ :=
  (k.position - cannon).sq_length

/-- The discriminant disc = b² − 4·a·c of Kinematic::lead_time. -/
def leadDisc (k : KinematicState) (cannon : Vec2) (projectile_speed : ℝ) : ℝ :=
  leadB k cannon ^ 2 - 4 * leadA k projectile_speed * leadC k cannon

/-- The `[1.0, -1.0].iter().map(root).filter(t > 0).reduce(min)` pipeline of
Kinematic::lead_time, written out on the two candidate roots (r₁ from sign
+1.0, r₂ from sign −1.0): keep the positive ones and return their minimum,
absent if neither is positive. -/
noncomputable def pickTime (r₁ r₂ : ℝ) : Option ℝ :=
  if 0 < r₁ then
    if 0 < r₂ then some (min r₁ r₂) else some r₁
  else
    if 0 < r₂ then some r₂ else none

/-- Kinematic::lead_time.  Note the code divides by 2·a without guarding
a = 0; with Lean's x / 0 = 0 convention the two candidates are then 0 and are
discarded by the positivity filter, whereas in Rust's f64 arithmetic a = 0
yields ±inf / NaN candidates and Duration::from_secs_f64 panics on +inf
(see lead_time_zero_a_divides_by_zero below). -/
noncomputable def lead_time (k : KinematicState) (cannon : Vec2) (projectile_speed : ℝ) :
    Option ℝ :=
  if leadDisc k cannon projectile_speed < 0 then none
  else
    pickTime
      ((-leadB k cannon + Real.sqrt (leadDisc k cannon projectile_speed)) /
        (2 * leadA k projectile_speed))
      ((-leadB k cannon - Real.sqrt (leadDisc k cannon projectile_speed)) /
        (2 * leadA k projectile_speed))

/-- Kinematic::lead_position. -/
noncomputable def lead_position (k : KinematicState) (cannon : Vec2) (projectile_speed : ℝ) :
    Option Vec2 :=
  (lead_time k cannon projectile_speed).map fun t => k.at_time t

/-- The Motor trait's data: the kinematic state together with the actuation
limits and braking thresholds.  The defaults in the source are slow_radius =
100, stop_radius = 25, slow_angle = deg_to_rad 90, stop_angle = deg_to_rad 0.5
and time_to_target = TICK_LENGTH, but all of them are overridable trait
methods, so they are kept as fields here. -/
structure MotorState extends KinematicState where
  max_linear_acceleration : ℝ
  max_angular_acceleration : ℝ
  slow_radius : ℝ
  stop_radius : ℝ
  slow_angle : ℝ
  stop_angle : ℝ
  time_to_target : ℝ

/-- Motor forward direction (inherited from Kinematic). -/
noncomputable def MotorState.forward (m : MotorState) : Vec2 := m.toKinematicState.forward

/-- The Seek strategy. -/
structure Seek where
  target : Vec2

/-- Seek::execute: accelerate at the maximum linear rate straight at the
target; absent when the direction has zero length. -/
noncomputable def Seek.execute (s : Seek) (m : MotorState) : Option (Vec2 × ℝ) :=
  let direction := s.target - m.position
  if direction.length = 0 then none
  else some (m.max_linear_acceleration • direction.normalize, 0)

/-- The Flee strategy. -/
structure Flee where
  target : Vec2

/-- Flee::execute: accelerate at the maximum linear rate straight away from
the target; absent when the direction has zero length. -/
noncomputable def Flee.execute (f : Flee) (m : MotorState) : Option (Vec2 × ℝ) :=
  let direction := m.position - f.target
  if direction.length = 0 then none
  else some (m.max_linear_acceleration • direction.normalize, 0)

/-- The Arrive strategy. -/
structure Arrive where
  target : Vec2

/-- The `magnitude` computed by Arrive::execute for a distance above the stop
radius: linearly scaled inside the slow radius, the full maximum beyond it. -/
noncomputable def arriveMagnitude (m : MotorState) (radius : ℝ) : ℝ :=
  if radius ≤ m.slow_radius then m.max_linear_acceleration * radius / m.slow_radius
  else m.max_linear_acceleration

/-- Arrive::execute: absent within the stop radius; otherwise command
(magnitude · direction-unit − velocity) / time_to_target as linear
acceleration and 0 angular acceleration. -/
noncomputable def Arrive.execute (ar : Arrive) (m : MotorState) : Option (Vec2 × ℝ) :=
  let direction := ar.target - m.position
  if direction.length ≤ m.stop_radius then none
  else
    some ((m.time_to_target)⁻¹ •
      (arriveMagnitude m direction.length • direction.normalize - m.velocity), 0)

/-- The Align strategy. -/
structure Align where
  target : ℝ

/-- The `magnitude` computed by Align::execute from the absolute angular
difference: 0 within the stop angle, linearly scaled strictly inside the slow
angle, the full maximum beyond. -/
noncomputable def alignMagnitude (m : MotorState) (angle : ℝ) : ℝ :=
  if angle ≤ m.stop_angle then 0
  else if angle < m.slow_angle then m.max_angular_acceleration * angle / m.slow_angle
  else m.max_angular_acceleration

/-- The `target_rotation = magnitude * direction / direction.abs()` of
Align::execute. -/
noncomputable def alignTargetRotation (m : MotorState) (target : ℝ) : ℝ :=
  let direction := angle_diff m.orientation target
  alignMagnitude m |direction| * direction / |direction|

/-- Align::execute: absent exactly when delta_rotation = target_rotation −
rotation is zero; otherwise command (Vec2::default(), delta_rotation /
time_to_target).  (At an exactly zero angular difference the Rust code's
`direction / direction.abs()` is 0.0/0.0 = NaN; Lean's 0/0 = 0 convention
is used here, and the theorems about Align only ever evaluate it at a
nonzero angular difference.) -/
noncomputable def Align.execute (al : Align) (m : MotorState) : Option (Vec2 × ℝ) :=
  let delta_rotation := alignTargetRotation m al.target - m.rotation
  if delta_rotation = 0 then none
  else some (Vec2.zero, delta_rotation / m.time_to_target)

/-- The Face strategy. -/
structure Face where
  target : Vec2

/-- Face::execute: absent when the target coincides with the position,
otherwise Align at the angle of the direction vector. -/
noncomputable def Face.execute (f : Face) (m : MotorState) : Option (Vec2 × ℝ) :=
  let direction := f.target - m.position
  if direction = Vec2.zero then none
  else Align.execute ⟨direction.angle⟩ m

/-- The Wander strategy's persistent state. -/
structure Wander where
  radius : ℝ
  offset : ℝ
  rate : ℝ
  orientation : ℝ

/-- Wander::execute.  `randVal` is the value drawn from the bounded random
source rand(-1.0, 1.0); the internal orientation is advanced by
randVal · rate · TICK_LENGTH and the updated state is returned alongside the
output, which pairs the linear component of Face's output with the angular
component of Seek's output (each defaulted to zero on abstention). -/
noncomputable def Wander.execute (w : Wander) (m : MotorState) (randVal : ℝ) :
    Wander × Option (Vec2 × ℝ) :=
  let w' : Wander := ⟨w.radius, w.offset, w.rate, w.orientation + randVal * w.rate * tick_length⟩
  let circle_center := m.position + w.offset • m.forward
  let target_position :=
    circle_center + w.radius • (Vec2.mk 1 0).rotate (m.orientation + w'.orientation)
  (w',
    some (((Face.execute ⟨target_position⟩ m).getD (Vec2.zero, 0)).1,
          ((Seek.execute ⟨target_position⟩ m).getD (Vec2.zero, 0)).2))

/-- The MovementBlend combinator; each child strategy is modelled by the
output function it realizes against a motor state, paired with its weight. -/
structure MovementBlend where
  moves : List ((MotorState → Option (Vec2 × ℝ)) × ℝ)

/-- Rust's Iterator::reduce over (+, +): absent on the empty list, otherwise
fold the componentwise sum starting from the first element. -/
def reduceSum : List (Vec2 × ℝ) → Option (Vec2 × ℝ)
  | [] => none
  | p :: ps => some (ps.foldl (fun acc q => (acc.1 + q.1, acc.2 + q.2)) p)

/-- The componentwise total of a list of (linear, angular) outputs. -/
def blendTotal (l : List (Vec2 × ℝ)) : Vec2 × ℝ :=
  l.foldr (fun p acc => (p.1 + acc.1, p.2 + acc.2)) (Vec2.zero, 0)

/-- MovementBlend::execute: weight-scale every non-absent child output and
reduce by componentwise summation; absent when the filtered list is empty. -/
def MovementBlend.execute (b : MovementBlend) (m : MotorState) : Option (Vec2 × ℝ) :=
  reduceSum (b.moves.filterMap fun mw => (mw.1 m).map fun la => (mw.2 • la.1, mw.2 * la.2))

/-- The static estimator (struct Kalman in the perception module), over ℚ. -/
structure Kalman where
  count : ℕ
  estimate : ℚ

/-- Kalman::new. -/
def Kalman.new (value : ℚ) : Kalman := ⟨0, value⟩

/-- Kalman::gain = 1 / count. -/
def Kalman.gain (k : Kalman) : ℚ := 1 / (k.count : ℚ)

/-- Kalman::update: increment count first, then estimate += gain · (value −
estimate) with the gain taken at the incremented count. -/
def Kalman.update (k : Kalman) (value : ℚ) : Kalman :=
  let incremented : Kalman := ⟨k.count + 1, k.estimate⟩
  ⟨incremented.count, incremented.estimate + incremented.gain * (value - incremented.estimate)⟩

/-- Folding Kalman::update over a list of measurements. -/
def Kalman.updates (k : Kalman) (measurements : List ℚ) : Kalman :=
  measurements.foldl Kalman.update k

/-- The dynamic alpha-beta estimator (struct DynKalman), over ℚ. -/
structure DynKalman where
  alpha : ℚ
  beta : ℚ
  interval : ℚ
  est_value : ℚ
  est_change : ℚ

/-- DynKalman::new: alpha = 0.2, beta = 0.1. -/
def DynKalman.new (estimate delta interval : ℚ) : DynKalman :=
  ⟨0.2, 0.1, interval, estimate, delta⟩

/-- DynKalman::predict: the one-step-ahead (value, rate) forecast, without
touching the state. -/
def DynKalman.predict (k : DynKalman) : ℚ × ℚ :=
  (k.est_value + k.est_change * k.interval, k.est_change)

/-- DynKalman::update: correct the prediction by alpha / (beta / interval)
times the residual. -/
def DynKalman.update (k : DynKalman) (measurement : ℚ) : DynKalman :=
  let p := k.predict
  ⟨k.alpha, k.beta, k.interval,
    p.1 + k.alpha * (measurement - p.1),
    p.2 + k.beta * (measurement - p.1) / k.interval⟩

/-- DynKalman::estimate. -/
def DynKalman.estimate (k : DynKalman) : ℚ × ℚ := (k.est_value, k.est_change)

/-- A concrete motor state used by the closed instances below: at the origin,
at rest, orientation 0, rotation 0, both acceleration limits 10, the default
radii 100/25, slow angle 2, stop angle 1, control horizon 1 second. -/
def mTest : MotorState := ⟨⟨Vec2.zero, Vec2.zero, 0, 0⟩, 10, 10, 100, 25, 2, 1, 1⟩

/-- mTest with a nonzero current rotation rate of 5 rad/s. -/
def mAlign : MotorState := ⟨⟨Vec2.zero, Vec2.zero, 0, 5⟩, 10, 10, 100, 25, 2, 1, 1⟩

/-- A target at (100, 0) at rest: against a cannon at the origin with
projectile speed 100 its lead quadratic has a = −10000 ≠ 0 and lead time 1. -/
def kLead : KinematicState := ⟨⟨100, 0⟩, ⟨0, 0⟩, 0, 0⟩

/-- A target at (100, 0) moving at (−50, 0): against a cannon at the origin
with projectile speed 50 its lead quadratic has a = 0. -/
def kDivZero : KinematicState := ⟨⟨100, 0⟩, ⟨-50, 0⟩, 0, 0⟩

/-!
Lemmas and theorems.  Each claim Cn of the specification has exactly one
main theorem, marked in its doc comment.
-/

@[simp] lemma Vec2.add_x (a b : Vec2) : (a + b).x = a.x + b.x := rfl

@[simp] lemma Vec2.add_y (a b : Vec2) : (a + b).y = a.y + b.y := rfl

@[simp] lemma Vec2.sub_x (a b : Vec2) : (a - b).x = a.x - b.x := rfl

@[simp] lemma Vec2.sub_y (a b : Vec2) : (a - b).y = a.y - b.y := rfl

@[simp] lemma Vec2.neg_x (a : Vec2) : (-a).x = -a.x := rfl

@[simp] lemma Vec2.neg_y (a : Vec2) : (-a).y = -a.y := rfl

@[simp] lemma Vec2.smul_x (c : ℝ) (a : Vec2) : (c • a).x = c * a.x := rfl

@[simp] lemma Vec2.smul_y (c : ℝ) (a : Vec2) : (c • a).y = c * a.y := rfl

@[simp] lemma Vec2.zero_x : Vec2.zero.x = 0 := rfl

@[simp] lemma Vec2.zero_y : Vec2.zero.y = 0 := rfl

lemma Vec2.length_eq_zero_iff (v : Vec2) : v.length = 0 ↔ v = Vec2.zero := by
  rw [Vec2.length, Vec2.sq_length, Real.sqrt_eq_zero']
  constructor
  · intro h0
    have hx : v.x ^ 2 = 0 := by nlinarith [sq_nonneg v.x, sq_nonneg v.y]
    have hy : v.y ^ 2 = 0 := by nlinarith [sq_nonneg v.x, sq_nonneg v.y]
    ext
    · simpa using sq_eq_zero_iff.mp hx
    · simpa using sq_eq_zero_iff.mp hy
  · rintro rfl
    norm_num

lemma Vec2.length_neg (v : Vec2) : (-v).length = v.length := by
  rw [Vec2.length, Vec2.length, Vec2.sq_length, Vec2.sq_length]
  simp only [Vec2.neg_x, Vec2.neg_y]
  ring_nf

lemma Vec2.normalize_neg (v : Vec2) : (-v).normalize = -v.normalize := by
  ext <;> simp [Vec2.normalize, Vec2.length_neg] <;> ring

/-- Invariant of the static estimator: starting from count n and estimate e,
folding updates over a measurement list adds the list length to the count and
makes estimate · count equal n · e plus the sum of the measurements. -/
lemma kalman_updates_invariant (measurements : List ℚ) :
    ∀ (n : ℕ) (e : ℚ),
      (Kalman.updates ⟨n, e⟩ measurements).count = n + measurements.length ∧
        (Kalman.updates ⟨n, e⟩ measurements).estimate * ((n : ℚ) + (measurements.length : ℚ)) =
          (n : ℚ) * e + measurements.sum := by
  induction measurements with
  | nil =>
    intro n e
    constructor
    · simp [Kalman.updates]
    · simp [Kalman.updates]
      ring
  | cons measurement rest ih =>
    intro n e
    have hne : ((n : ℚ) + 1) ≠ 0 := by positivity
    have hstep : Kalman.update ⟨n, e⟩ measurement =
        ⟨n + 1, e + (1 / ((n : ℚ) + 1)) * (measurement - e)⟩ := by
      simp only [Kalman.update, Kalman.gain]
      congr 1
      push_cast
      ring
    have hfold : Kalman.updates ⟨n, e⟩ (measurement :: rest) =
        Kalman.updates (Kalman.update ⟨n, e⟩ measurement) rest := rfl
    rw [hfold, hstep]
    obtain ⟨hc, he⟩ := ih (n + 1) (e + (1 / ((n : ℚ) + 1)) * (measurement - e))
    constructor
    · rw [hc]
      simp [List.length_cons]
      omega
    · have h2 : ((n : ℚ) + 1) * (e + (1 / ((n : ℚ) + 1)) * (measurement - e)) =
          (n : ℚ) * e + measurement := by
        field_simp
        ring
      simp only [List.length_cons, List.sum_cons]
      push_cast at he h2 ⊢
      linear_combination he + h2

/-- Claim C5: for every seed and every nonempty measurement list, the static
estimator's count equals the number of measurements, its gain is exactly
1 / count, and its estimate is the exact arithmetic mean of the measurements
(the construction seed does not enter the average). -/
theorem static_estimator_is_running_mean (seed : ℚ) (measurements : List ℚ)
    (h : measurements ≠ []) :
    (Kalman.updates (Kalman.new seed) measurements).count = measurements.length ∧
      (Kalman.updates (Kalman.new seed) measurements).gain = 1 / (measurements.length : ℚ) ∧
      (Kalman.updates (Kalman.new seed) measurements).estimate =
        measurements.sum / (measurements.length : ℚ) := by
  obtain ⟨hc, he⟩ := kalman_updates_invariant measurements 0 seed
  have hlen0 : measurements.length ≠ 0 := by
    simpa using (List.length_pos.mpr h).ne'
  have hlen : (measurements.length : ℚ) ≠ 0 := Nat.cast_ne_zero.mpr hlen0
  have hcount : (Kalman.updates (Kalman.new seed) measurements).count = measurements.length := by
    simpa [Kalman.new] using hc
  refine ⟨hcount, ?_, ?_⟩
  · rw [Kalman.gain, hcount]
  · have he' : (Kalman.updates (Kalman.new seed) measurements).estimate *
        (measurements.length : ℚ) = measurements.sum := by
      simpa [Kalman.new] using he
    rw [eq_div_iff hlen]
    exact he'

/-- Witness for C5 at seed 1000 and measurements [996, 994]. -/
theorem static_estimator_is_running_mean_witness :
    ([996, 994] : List ℚ) ≠ [] ∧
      (Kalman.updates (Kalman.new 1000) [996, 994]).count = ([996, 994] : List ℚ).length ∧
      (Kalman.updates (Kalman.new 1000) [996, 994]).gain = 1 / (([996, 994] : List ℚ).length : ℚ) ∧
      (Kalman.updates (Kalman.new 1000) [996, 994]).estimate =
        ([996, 994] : List ℚ).sum / (([996, 994] : List ℚ).length : ℚ) :=
  ⟨by simp, static_estimator_is_running_mean 1000 [996, 994] (by simp)⟩

/-- Claim C6: the dynamic estimator's update computes predicted_value =
value + rate·interval, corrects value by alpha·residual and rate by
beta·residual/interval, and predict returns the one-step-ahead pair; on the
spec's concrete run (seed 30000 / rate 40 / 5-second interval) the initial
prediction is (30200, 40) and after measurement 30171 the estimate is
exactly (30194.2, 39.42) with one-step prediction exactly (30391.3, 39.42). -/
theorem dynamic_estimator_update_and_example :
    (∀ (k : DynKalman) (measurement : ℚ),
        (k.update measurement).est_value =
            (k.est_value + k.est_change * k.interval) +
              k.alpha * (measurement - (k.est_value + k.est_change * k.interval)) ∧
          (k.update measurement).est_change =
            k.est_change +
              k.beta * (measurement - (k.est_value + k.est_change * k.interval)) / k.interval ∧
          k.predict = (k.est_value + k.est_change * k.interval, k.est_change)) ∧
      (DynKalman.new 30000 40 5).predict = (30200, 40) ∧
      ((DynKalman.new 30000 40 5).update 30171).estimate = (30194.2, 39.42) ∧
      ((DynKalman.new 30000 40 5).update 30171).predict = (30391.3, 39.42) := by
  refine ⟨fun k measurement => ⟨rfl, rfl, rfl⟩, ?_, ?_, ?_⟩ <;>
    norm_num [DynKalman.new, DynKalman.update, DynKalman.predict, DynKalman.estimate, Prod.ext_iff]

lemma align_execute_linear (al : Align) (m : MotorState) :
    ((Align.execute al m).getD (Vec2.zero, 0)).1 = Vec2.zero := by
  simp only [Align.execute]
  split_ifs <;> rfl

lemma face_execute_linear (f : Face) (m : MotorState) :
    ((Face.execute f m).getD (Vec2.zero, 0)).1 = Vec2.zero := by
  simp only [Face.execute]
  split_ifs
  · rfl
  · exact align_execute_linear _ m

lemma seek_execute_angular (s : Seek) (m : MotorState) :
    ((Seek.execute s m).getD (Vec2.zero, 0)).2 = 0 := by
  simp only [Seek.execute]
  split_ifs <;> rfl

/-- Claim C4: for every Wander state, motor state and random draw, Wander
produces Some, and the command is exactly the zero linear acceleration vector
paired with zero angular acceleration: the linear part comes from Face (whose
Align output always has a zero linear component) and the angular part from
Seek (whose output always has a zero angular component). -/
theorem wander_output_always_zero (w : Wander) (m : MotorState) (randVal : ℝ) :
    (Wander.execute w m randVal).2 = some (Vec2.zero, 0) := by
  simp only [Wander.execute]
  rw [face_execute_linear, seek_execute_angular]

lemma blend_foldl_eq (xs : List (Vec2 × ℝ)) :
    ∀ p : Vec2 × ℝ,
      xs.foldl (fun acc q => (acc.1 + q.1, acc.2 + q.2)) p =
        (p.1 + (blendTotal xs).1, p.2 + (blendTotal xs).2) := by
  induction xs with
  | nil =>
    intro p
    simp only [List.foldl_nil, blendTotal, List.foldr_nil]
    refine Prod.ext ?_ ?_
    · ext <;> simp
    · simp
  | cons q qs ih =>
    intro p
    simp only [List.foldl_cons, ih, blendTotal, List.foldr_cons]
    refine Prod.ext ?_ ?_
    · ext <;> simp <;> ring
    · simp
      ring

lemma reduceSum_eq_none_iff (l : List (Vec2 × ℝ)) : reduceSum l = none ↔ l = [] := by
  cases l <;> simp [reduceSum]

/-- Claim C8: MovementBlend abstains exactly when every child abstains, and a
non-absent result is exactly the componentwise sum of the weight-scaled
non-abstaining child outputs; in particular with two children of equal weight
of which the first abstains, the blend returns exactly the second child's
weight-scaled output (no division by the number of children). -/
theorem movement_blend_weighted_sum (b : MovementBlend) (m : MotorState) :
    (MovementBlend.execute b m = none ↔ ∀ mw ∈ b.moves, mw.1 m = none) ∧
      (∀ out, MovementBlend.execute b m = some out →
        out = blendTotal
          (b.moves.filterMap fun mw => (mw.1 m).map fun la => (mw.2 • la.1, mw.2 * la.2))) ∧
      (∀ (f g : MotorState → Option (Vec2 × ℝ)) (w : ℝ) (la : Vec2 × ℝ),
        f m = none → g m = some la →
          MovementBlend.execute ⟨[(f, w), (g, w)]⟩ m = some (w • la.1, w * la.2)) := by
  refine ⟨?_, ?_, ?_⟩
  · rw [MovementBlend.execute, reduceSum_eq_none_iff, List.filterMap_eq_nil_iff]
    constructor
    · intro hall mw hmw
      have := hall mw hmw
      exact Option.map_eq_none'.mp this
    · intro hall mw hmw
      rw [hall mw hmw]
      rfl
  · intro out hout
    rw [MovementBlend.execute] at hout
    rcases hl : b.moves.filterMap fun mw => (mw.1 m).map fun la => (mw.2 • la.1, mw.2 * la.2) with
      _ | ⟨p, ps⟩
    · rw [hl] at hout
      cases hout
    · rw [hl] at hout
      rw [reduceSum] at hout
      have := Option.some.inj hout
      rw [← this, blend_foldl_eq, hl]
      rfl
  · intro f g w la hf hg
    rw [MovementBlend.execute]
    simp only [List.filterMap_cons, hf, hg, Option.map_none', Option.map_some',
      List.filterMap_nil, reduceSum, List.foldl_nil]

/-- Witness for C8: a blend of an abstaining child and a child producing
((1, 2), 3), both with weight 2, returns exactly (2 • (1, 2), 2 · 3). -/
theorem movement_blend_weighted_sum_witness :
    (fun _ : MotorState => (none : Option (Vec2 × ℝ))) mTest = none ∧
      MovementBlend.execute
          ⟨[(fun _ => none, 2), (fun _ => some (⟨1, 2⟩, 3), 2)]⟩ mTest =
        some ((2 : ℝ) • (⟨1, 2⟩ : Vec2), (2 : ℝ) * 3) :=
  ⟨rfl,
    (movement_blend_weighted_sum ⟨[(fun _ => none, 2), (fun _ => some (⟨1, 2⟩, 3), 2)]⟩
          mTest).2.2
      (fun _ => none) (fun _ => some (⟨1, 2⟩, 3)) 2 (⟨1, 2⟩, 3) rfl rfl⟩

lemma vec2_sub_ne_zero {a b : Vec2} (h : a ≠ b) : a - b ≠ Vec2.zero := by
  intro hz
  apply h
  have hx := congrArg Vec2.x hz
  have hy := congrArg Vec2.y hz
  simp only [Vec2.sub_x, Vec2.sub_y, Vec2.zero_x, Vec2.zero_y] at hx hy
  ext <;> linarith

/-- Claim C10: for every motor state and every target different from the
current position, Seek and Flee both produce Some with zero angular component,
and their linear outputs are exact negations of each other. -/
theorem seek_flee_opposite (m : MotorState) (target : Vec2) (h : target ≠ m.position) :
    ∃ v : Vec2,
      Seek.execute ⟨target⟩ m = some (v, 0) ∧ Flee.execute ⟨target⟩ m = some (-v, 0) := by
  have hd : target - m.position ≠ Vec2.zero := vec2_sub_ne_zero h
  have hlen : (target - m.position).length ≠ 0 := fun h0 =>
    hd ((Vec2.length_eq_zero_iff _).mp h0)
  have hrev : m.position - target = -(target - m.position) := by
    ext <;> simp
  have hlen2 : (m.position - target).length = (target - m.position).length := by
    rw [hrev, Vec2.length_neg]
  refine ⟨m.max_linear_acceleration • (target - m.position).normalize, ?_, ?_⟩
  · simp only [Seek.execute]
    rw [if_neg hlen]
  · simp only [Flee.execute]
    rw [if_neg (hlen2 ▸ hlen)]
    rw [hrev, Vec2.normalize_neg]
    congr 1
    refine Prod.ext ?_ rfl
    ext <;> simp

/-- Witness for C10 at mTest (position (0,0)) and target (3, 4). -/
theorem seek_flee_opposite_witness :
    (⟨3, 4⟩ : Vec2) ≠ mTest.position ∧
      ∃ v : Vec2,
        Seek.execute ⟨⟨3, 4⟩⟩ mTest = some (v, 0) ∧
          Flee.execute ⟨⟨3, 4⟩⟩ mTest = some (-v, 0) := by
  have h : (⟨3, 4⟩ : Vec2) ≠ mTest.position := by
    intro hc
    have := congrArg Vec2.x hc
    simp only [mTest] at this
    norm_num at this
  exact ⟨h, seek_flee_opposite mTest ⟨3, 4⟩ h⟩

/-- angle_diff evaluated at orientation 0 and target 1/2 is 1/2 (the
enclosing multiple-of-2π correction is zero there). -/
lemma angle_diff_zero_half : angle_diff 0 (1 / 2) = 1 / 2 := by
  have hpi := Real.pi_gt_three
  have h2 : (0 : ℝ) < 2 * Real.pi := by positivity
  have hup : ((1 : ℝ) / 2 - 0 - Real.pi) / (2 * Real.pi) ≤ 0 := by
    rw [div_nonpos_iff]
    right
    constructor <;> linarith
  have hlow : (-1 : ℝ) < ((1 : ℝ) / 2 - 0 - Real.pi) / (2 * Real.pi) := by
    rw [lt_div_iff₀ h2]
    linarith
  have hceil : Int.ceil (((1 : ℝ) / 2 - 0 - Real.pi) / (2 * Real.pi)) = 0 := by
    rw [Int.ceil_eq_zero_iff]
    exact ⟨hlow, hup⟩
  rw [angle_diff, hceil]
  norm_num

lemma mAlign_target_rotation : alignTargetRotation mAlign (1 / 2) = 0 := by
  have ho : mAlign.orientation = 0 := rfl
  simp only [alignTargetRotation, ho, angle_diff_zero_half, alignMagnitude]
  have hstop : |(1 : ℝ) / 2| ≤ mAlign.stop_angle := by
    rw [show mAlign.stop_angle = 1 from rfl]
    rw [abs_of_nonneg] <;> norm_num
  rw [if_pos hstop]
  norm_num

/-- Counterexample to C1 as stated: at mAlign (orientation 0, rotation 5,
stop angle 1) and target orientation 1/2 the angular difference 1/2 lies
within the stop angle, yet Align does not abstain — it commands the braking
torque (0 − 5) / time_to_target. -/
theorem align_abstains_iff_counterexample :
    |angle_diff mAlign.orientation (1 / 2)| ≤ mAlign.stop_angle ∧
      Align.execute ⟨1 / 2⟩ mAlign ≠ none := by
  have ho : mAlign.orientation = 0 := rfl
  constructor
  · rw [ho, angle_diff_zero_half, show mAlign.stop_angle = 1 from rfl]
    rw [abs_of_nonneg] <;> norm_num
  · simp only [Align.execute, mAlign_target_rotation]
    rw [if_neg]
    · simp
    · rw [show mAlign.rotation = 5 from rfl]
      norm_num

/-- Claim C1 (amended): at a nonzero angular difference, Align abstains if
and only if the target rotation it computes equals the current rotation; and
within the stop angle that target rotation is zero, so there Align abstains
exactly when the current rotation is zero and otherwise commands braking. -/
theorem align_abstention_characterization (m : MotorState) (target : ℝ)
    (h : angle_diff m.orientation target ≠ 0) :
    (Align.execute ⟨target⟩ m = none ↔ alignTargetRotation m target = m.rotation) ∧
      (|angle_diff m.orientation target| ≤ m.stop_angle →
        alignTargetRotation m target = 0) := by
  constructor
  · simp only [Align.execute]
    split_ifs with hδ
    · exact iff_of_true rfl (by linarith [sub_eq_zero.mp hδ])
    · refine iff_of_false (by simp) fun hc => hδ ?_
      rw [hc]
      ring
  · intro hle
    simp only [alignTargetRotation, alignMagnitude]
    rw [if_pos hle]
    simp

/-- Witness for C1's amended theorem at mTest (orientation 0, rotation 0) and
target orientation 1/2. -/
theorem align_abstention_characterization_witness :
    angle_diff mTest.orientation (1 / 2) ≠ 0 ∧
      ((Align.execute ⟨1 / 2⟩ mTest = none ↔
          alignTargetRotation mTest (1 / 2) = mTest.rotation) ∧
        (|angle_diff mTest.orientation (1 / 2)| ≤ mTest.stop_angle →
          alignTargetRotation mTest (1 / 2) = 0)) := by
  have h : angle_diff mTest.orientation (1 / 2) ≠ 0 := by
    rw [show mTest.orientation = 0 from rfl, angle_diff_zero_half]
    norm_num
  exact ⟨h, align_abstention_characterization mTest (1 / 2) h⟩

/-- Claim C9: Arrive abstains exactly within the stop radius; above it the
command is (magnitude · unit-direction − velocity) / time_to_target with
magnitude given by arriveMagnitude; and under the data-model invariants
(nonnegative maximum acceleration, positive slow radius) arriveMagnitude is a
monotone and continuous function of the distance, linearly scaled up to the
slow radius and equal to the full maximum beyond it. -/
theorem arrive_magnitude_monotone_continuous (m : MotorState)
    (hmax : 0 ≤ m.max_linear_acceleration) (hslow : 0 < m.slow_radius) :
    (∀ target : Vec2,
        Arrive.execute ⟨target⟩ m = none ↔ (target - m.position).length ≤ m.stop_radius) ∧
      (∀ target : Vec2, m.stop_radius < (target - m.position).length →
        Arrive.execute ⟨target⟩ m =
          some ((m.time_to_target)⁻¹ •
            (arriveMagnitude m (target - m.position).length •
              (target - m.position).normalize - m.velocity), 0)) ∧
      Monotone (arriveMagnitude m) ∧
      Continuous (arriveMagnitude m) ∧
      (∀ r : ℝ, r ≤ m.slow_radius →
        arriveMagnitude m r = m.max_linear_acceleration * r / m.slow_radius) ∧
      (∀ r : ℝ, m.slow_radius ≤ r → arriveMagnitude m r = m.max_linear_acceleration) := by
  refine ⟨?_, ?_, ?_, ?_, ?_, ?_⟩
  · intro target
    simp only [Arrive.execute]
    split_ifs with hc
    · exact iff_of_true rfl hc
    · exact iff_of_false (by simp) hc
  · intro target htar
    simp only [Arrive.execute]
    rw [if_neg (not_le.mpr htar)]
  · intro a b hab
    simp only [arriveMagnitude]
    split_ifs with h1 h2 h2
    · exact div_le_div_of_nonneg_right (mul_le_mul_of_nonneg_left hab hmax) hslow.le
    · rw [div_le_iff₀ hslow]
      exact mul_le_mul_of_nonneg_left (h1.trans (by linarith)) hmax
    · linarith
    · exact le_refl _
  · have heq : arriveMagnitude m = fun r =>
        if r ≤ m.slow_radius then m.max_linear_acceleration * r / m.slow_radius
        else m.max_linear_acceleration := rfl
    rw [heq]
    refine Continuous.if_le ?_ continuous_const continuous_id continuous_const ?_
    · exact (continuous_const.mul continuous_id).div_const _
    · intro r hr
      rw [hr]
      field_simp
  · intro r hr
    simp only [arriveMagnitude]
    rw [if_pos hr]
  · intro r hr
    simp only [arriveMagnitude]
    split_ifs with h1
    · have : r = m.slow_radius := le_antisymm h1 hr
      rw [this]
      field_simp
    · rfl

/-- Witness for C9 at mTest (maximum acceleration 10 ≥ 0, slow radius
100 > 0): monotonicity of the commanded magnitude. -/
theorem arrive_magnitude_monotone_continuous_witness :
    (0 : ℝ) ≤ mTest.max_linear_acceleration ∧ (0 : ℝ) < mTest.slow_radius ∧
      Monotone (arriveMagnitude mTest) := by
  have h1 : (0 : ℝ) ≤ mTest.max_linear_acceleration := by norm_num [mTest]
  have h2 : (0 : ℝ) < mTest.slow_radius := by norm_num [mTest]
  exact ⟨h1, h2, (arrive_magnitude_monotone_continuous mTest h1 h2).2.2.1⟩

/-- Claim C2 (the code bug it reports): at a target at (100, 0) moving at
(−50, 0) against a cannon at the origin with projectile speed 50, the
quadratic coefficient a is exactly 0 while the discriminant is nonnegative,
so lead_time's non-absent branch computes (−b ± √disc) / (2·a) with a zero
divisor — the division by 2·a IS executed with a = 0 — even though the
degenerate linear equation b·t + c = 0 has the positive solution t = 1
(leadA·1² + leadB·1 + leadC = 0). -/
theorem lead_time_zero_a_divides_by_zero :
    leadA kDivZero 50 = 0 ∧
      ¬ leadDisc kDivZero Vec2.zero 50 < 0 ∧
      leadA kDivZero 50 * 1 ^ 2 + leadB kDivZero Vec2.zero * 1 + leadC kDivZero Vec2.zero = 0 ∧
      (0 : ℝ) < 1 := by
  norm_num [leadA, leadB, leadC, leadDisc, kDivZero, Vec2.sq_length, Vec2.dot]

lemma pickTime_eq_none_iff (r₁ r₂ : ℝ) : pickTime r₁ r₂ = none ↔ r₁ ≤ 0 ∧ r₂ ≤ 0 := by
  unfold pickTime
  split_ifs with h1 h2 h2
  · exact iff_of_false (by simp) fun hc => absurd h1 (not_lt.mpr hc.1)
  · exact iff_of_false (by simp) fun hc => absurd h1 (not_lt.mpr hc.1)
  · exact iff_of_false (by simp) fun hc => absurd h2 (not_lt.mpr hc.2)
  · exact iff_of_true rfl ⟨le_of_not_lt h1, le_of_not_lt h2⟩

lemma pickTime_some (r₁ r₂ t : ℝ) (h : pickTime r₁ r₂ = some t) :
    (t = r₁ ∨ t = r₂) ∧ 0 < t ∧ (0 < r₁ → t ≤ r₁) ∧ (0 < r₂ → t ≤ r₂) := by
  unfold pickTime at h
  split_ifs at h with h1 h2 h2
  · obtain rfl := Option.some.inj h
    exact ⟨min_choice r₁ r₂, lt_min h1 h2, fun _ => min_le_left r₁ r₂, fun _ => min_le_right r₁ r₂⟩
  · obtain rfl := Option.some.inj h
    exact ⟨Or.inl rfl, h1, fun _ => le_refl _, fun hc => absurd hc h2⟩
  · obtain rfl := Option.some.inj h
    exact ⟨Or.inr rfl, h2, fun hc => absurd hc h1, fun _ => le_refl _⟩

/-- With a ≠ 0 and a nonnegative discriminant, the real roots of the lead
quadratic are exactly the two candidates the code computes. -/
lemma lead_root_iff (k : KinematicState) (cannon : Vec2) (s : ℝ)
    (ha : leadA k s ≠ 0) (hd : 0 ≤ leadDisc k cannon s) (t : ℝ) :
    leadA k s * t ^ 2 + leadB k cannon * t + leadC k cannon = 0 ↔
      t = (-leadB k cannon + Real.sqrt (leadDisc k cannon s)) / (2 * leadA k s) ∨
        t = (-leadB k cannon - Real.sqrt (leadDisc k cannon s)) / (2 * leadA k s) := by
  have hdisc : discrim (leadA k s) (leadB k cannon) (leadC k cannon) =
      Real.sqrt (leadDisc k cannon s) * Real.sqrt (leadDisc k cannon s) := by
    rw [Real.mul_self_sqrt hd, discrim, leadDisc]
  have hq := quadratic_eq_zero_iff ha hdisc t
  rw [show leadA k s * t ^ 2 + leadB k cannon * t + leadC k cannon =
      leadA k s * (t * t) + leadB k cannon * t + leadC k cannon from by ring]
  exact hq

/-- Claim C3: with a ≠ 0, lead_time is absent iff the discriminant is
negative or no root of the lead quadratic is positive, and a present result
is a positive root of the quadratic and is the least among its positive
roots. -/
theorem lead_time_smallest_positive_root (k : KinematicState) (cannon : Vec2) (s : ℝ)
    (ha : leadA k s ≠ 0) :
    (lead_time k cannon s = none ↔
        leadDisc k cannon s < 0 ∨
          ∀ t : ℝ, leadA k s * t ^ 2 + leadB k cannon * t + leadC k cannon = 0 → t ≤ 0) ∧
      ∀ t : ℝ, lead_time k cannon s = some t →
        leadA k s * t ^ 2 + leadB k cannon * t + leadC k cannon = 0 ∧ 0 < t ∧
          ∀ u : ℝ, leadA k s * u ^ 2 + leadB k cannon * u + leadC k cannon = 0 → 0 < u →
            t ≤ u := by
  by_cases hd : leadDisc k cannon s < 0
  · constructor
    · rw [lead_time, if_pos hd]
      exact iff_of_true rfl (Or.inl hd)
    · intro t ht
      rw [lead_time, if_pos hd] at ht
      cases ht
  · push_neg at hd
    have hroot := lead_root_iff k cannon s ha hd
    have hQ₁ : leadA k s *
          ((-leadB k cannon + Real.sqrt (leadDisc k cannon s)) / (2 * leadA k s)) ^ 2 +
        leadB k cannon * ((-leadB k cannon + Real.sqrt (leadDisc k cannon s)) / (2 * leadA k s)) +
        leadC k cannon = 0 := (hroot _).mpr (Or.inl rfl)
    have hQ₂ : leadA k s *
          ((-leadB k cannon - Real.sqrt (leadDisc k cannon s)) / (2 * leadA k s)) ^ 2 +
        leadB k cannon * ((-leadB k cannon - Real.sqrt (leadDisc k cannon s)) / (2 * leadA k s)) +
        leadC k cannon = 0 := (hroot _).mpr (Or.inr rfl)
    have hlt : lead_time k cannon s =
        pickTime ((-leadB k cannon + Real.sqrt (leadDisc k cannon s)) / (2 * leadA k s))
          ((-leadB k cannon - Real.sqrt (leadDisc k cannon s)) / (2 * leadA k s)) := by
      rw [lead_time, if_neg (not_lt.mpr hd)]
    constructor
    · rw [hlt, pickTime_eq_none_iff]
      constructor
      · rintro ⟨hle₁, hle₂⟩
        right
        intro t ht
        rcases (hroot t).mp ht with rfl | rfl
        · exact hle₁
        · exact hle₂
      · rintro (hneg | hall)
        · exact absurd hneg (not_lt.mpr hd)
        · exact ⟨hall _ hQ₁, hall _ hQ₂⟩
    · intro t ht
      rw [hlt] at ht
      obtain ⟨hmem, hpos, hb₁, hb₂⟩ := pickTime_some _ _ _ ht
      have hQt : leadA k s * t ^ 2 + leadB k cannon * t + leadC k cannon = 0 := by
        rcases hmem with rfl | rfl
        · exact hQ₁
        · exact hQ₂
      refine ⟨hQt, hpos, fun u hu hu0 => ?_⟩
      rcases (hroot u).mp hu with rfl | rfl
      · exact hb₁ hu0
      · exact hb₂ hu0

lemma leadA_kLead : leadA kLead 100 = -10000 := by
  norm_num [leadA, kLead, Vec2.sq_length]

lemma leadB_kLead : leadB kLead Vec2.zero = 0 := by
  norm_num [leadB, kLead, Vec2.dot]

lemma leadC_kLead : leadC kLead Vec2.zero = 10000 := by
  norm_num [leadC, kLead, Vec2.sq_length]

lemma leadDisc_kLead : leadDisc kLead Vec2.zero 100 = 400000000 := by
  rw [leadDisc, leadA_kLead, leadB_kLead, leadC_kLead]
  norm_num

lemma lead_time_kLead : lead_time kLead Vec2.zero 100 = some 1 := by
  rw [lead_time, if_neg (by rw [leadDisc_kLead]; norm_num)]
  rw [leadDisc_kLead, leadA_kLead, leadB_kLead,
    show Real.sqrt 400000000 = 20000 from by
      rw [show (400000000 : ℝ) = 20000 ^ 2 from by norm_num, Real.sqrt_sq (by norm_num)]]
  norm_num [pickTime]

/-- Witness for C3 at kLead against a cannon at the origin with projectile
speed 100: the quadratic coefficient a = −10000 is nonzero and the
characterization applies. -/
theorem lead_time_smallest_positive_root_witness :
    leadA kLead 100 ≠ 0 ∧
      (lead_time kLead Vec2.zero 100 = none ↔
        leadDisc kLead Vec2.zero 100 < 0 ∨
          ∀ t : ℝ,
            leadA kLead 100 * t ^ 2 + leadB kLead Vec2.zero * t + leadC kLead Vec2.zero = 0 →
              t ≤ 0) := by
  have ha : leadA kLead 100 ≠ 0 := by
    rw [leadA_kLead]
    norm_num
  exact ⟨ha, (lead_time_smallest_positive_root kLead Vec2.zero 100 ha).1⟩

/-- A present lead time is a positive root of the lead quadratic (with no
hypothesis on a: when a = 0 the embedded lead_time is always absent). -/
lemma lead_time_some_root (k : KinematicState) (cannon : Vec2) (s t : ℝ)
    (ht : lead_time k cannon s = some t) :
    0 < t ∧ leadA k s * t ^ 2 + leadB k cannon * t + leadC k cannon = 0 := by
  by_cases hd : leadDisc k cannon s < 0
  · rw [lead_time, if_pos hd] at ht
    cases ht
  · push_neg at hd
    rw [lead_time, if_neg (not_lt.mpr hd)] at ht
    by_cases ha : leadA k s = 0
    · rw [ha] at ht
      norm_num [pickTime] at ht
      cases ht
    · obtain ⟨hmem, hpos, -, -⟩ := pickTime_some _ _ _ ht
      refine ⟨hpos, ?_⟩
      rcases hmem with rfl | rfl
      · exact (lead_root_iff k cannon s ha hd _).mpr (Or.inl rfl)
      · exact (lead_root_iff k cannon s ha hd _).mpr (Or.inr rfl)

/-- Claim C7: whenever lead_time returns t (for a nonnegative projectile
speed), the distance from the cannon to the extrapolated position at_time t
is exactly projectile_speed · t. -/
theorem lead_time_round_trip (k : KinematicState) (cannon : Vec2) (s t : ℝ)
    (hs : 0 ≤ s) (ht : lead_time k cannon s = some t) :
    ((k.at_time t) - cannon).length = s * t := by
  obtain ⟨hpos, hQ⟩ := lead_time_some_root k cannon s t ht
  have hsq : ((k.at_time t) - cannon).sq_length = (s * t) ^ 2 := by
    simp only [leadA, leadB, leadC, Vec2.sq_length, Vec2.dot, Vec2.sub_x, Vec2.sub_y] at hQ
    simp only [KinematicState.at_time, Vec2.sq_length, Vec2.sub_x, Vec2.sub_y, Vec2.add_x,
      Vec2.add_y, Vec2.smul_x, Vec2.smul_y]
    linear_combination hQ
  rw [Vec2.length, hsq, Real.sqrt_sq (mul_nonneg hs hpos.le)]

/-- Witness for C7 at kLead, cannon at the origin, projectile speed 100 and
the solved lead time 1: the round trip evaluates to 100 · 1. -/
theorem lead_time_round_trip_witness :
    (0 : ℝ) ≤ 100 ∧ lead_time kLead Vec2.zero 100 = some 1 ∧
      ((kLead.at_time 1) - Vec2.zero).length = 100 * 1 :=
  ⟨by norm_num, lead_time_kLead,
    lead_time_round_trip kLead Vec2.zero 100 1 (by norm_num) lead_time_kLead⟩

end Spacepoort
